import Mathlib

/-!
Verification of the zibra repository (src/server.py and src/gzipServer.py).

The Python code works on byte streams; text strings obtained with
`.decode('utf8')` are modelled by their byte sequences (`List Nat`, one
entry per byte), and decoding is the identity.  All the string operations
the code performs (`split`, `strip`, `casefold`, comparisons against ASCII
literals) are modelled bytewise; on ASCII data — which is all the data the
protocol logic touches — this agrees exactly with Python.  A socket
connection is modelled by the full list of bytes the peer sends before
closing: `readline` takes bytes up to and including the next `\n` (byte
10), and `read(n)` takes `min n remaining` bytes, returning fewer only at
end of stream, exactly like a blocking `BufferedReader`.

Python exceptions raised by the reference code (`ValueError` from tuple
unpacking or `int()`, `AttributeError` from `None.split`, `assert`) are
modelled as values of `PyError`, named after the spec's error taxonomy
where the spec names the condition.
-/

/-- ASCII bytes of a string literal (all literals used here are ASCII,
so the code point equals the UTF-8 byte). -/
def strB (s : String) : List Nat := s.data.map Char.toNat

/-- Errors of the reference implementation, one constructor per distinct
failure site: `method, url, version = reqline.split(" ", 2)` unpacking
(`MalformedRequestLine`), the `assert method in ["GET","POST"]`
(`UnsupportedMethod`), `header, value = line.split(":", 1)` unpacking
(`MalformedHeader`), `name, value = field.split("=", 1)` unpacking in
`form_decode` (`MissingEquals`), `int(...)` failure (`valueError`), and
`None.split` when a POST /add arrives without a body (`noneTypeError`). -/
inductive PyError where
  | malformedRequestLine
  | unsupportedMethod
  | malformedHeader
  | missingEquals
  | valueError
  | noneTypeError
deriving DecidableEq

/-- A Python `dict` with byte-string keys and values, as an association
list in insertion order. -/
abbrev Dict := List (List Nat × List Nat)

/-- `d[k] = v` on a Python dict: replace the value in place if the key is
present, otherwise append the new binding at the end. -/
def dictInsert (k v : List Nat) : Dict → Dict
  | [] => [(k, v)]
  | p :: t => if p.1 = k then (k, v) :: t else p :: dictInsert k v t

/-- Python dict lookup (`d[k]` / `k in d`). -/
def dictGet (k : List Nat) : Dict → Option (List Nat)
  | [] => none
  | p :: t => if p.1 = k then some p.2 else dictGet k t

/-- `str.casefold()` restricted to ASCII, which is all the code applies it
to: map the uppercase letters A–Z to lowercase. -/
def casefold (s : List Nat) : List Nat :=
  s.map fun b => if 65 ≤ b ∧ b ≤ 90 then b + 32 else b

/-- The ASCII whitespace bytes stripped by `str.strip()`:
space, tab, newline, carriage return, form feed, vertical tab. -/
def isSpaceB (b : Nat) : Bool := b = 32 || b = 9 || b = 10 || b = 13 || b = 12 || b = 11

/-- `str.strip()`: drop whitespace from the right end, then from the left. -/
def pyStrip (s : List Nat) : List Nat :=
  ((s.reverse.dropWhile isSpaceB).reverse).dropWhile isSpaceB

/-- `file.readline()` on a binary stream: the bytes up to and including
the first `\n` (byte 10), or everything up to end of stream, paired with
the remaining bytes. -/
def readline : List Nat → List Nat × List Nat
  | [] => ([], [])
  | b :: rest =>
    if b = 10 then ([10], rest)
    else
      let p := readline rest
      (b :: p.1, p.2)

/-- `s.split(sep, maxsplit)` on a one-byte separator: split at the first
`maxs` occurrences of `sep`; `acc` holds the bytes of the current field in
reverse. -/
def pySplitGo (sep : Nat) : Nat → List Nat → List Nat → List (List Nat)
  | _, [], acc => [acc.reverse]
  | maxs, b :: rest, acc =>
    if b = sep ∧ 0 < maxs then acc.reverse :: pySplitGo sep (maxs - 1) rest []
    else pySplitGo sep maxs rest (b :: acc)

/-- `s.split(sep, maxsplit)` with a one-byte separator. -/
def pySplit (sep maxs : Nat) (s : List Nat) : List (List Nat) :=
  pySplitGo sep maxs s []

/-- `s.split(sep)` (no maxsplit) on a one-byte separator. -/
def pySplitAllGo (sep : Nat) : List Nat → List Nat → List (List Nat)
  | [], acc => [acc.reverse]
  | b :: rest, acc =>
    if b = sep then acc.reverse :: pySplitAllGo sep rest []
    else pySplitAllGo sep rest (b :: acc)

/-- `s.split(sep)` with a one-byte separator and no split limit. -/
def pySplitAll (sep : Nat) (s : List Nat) : List (List Nat) :=
  pySplitAllGo sep s []

/-- The header loop of `handle_connection` (src/server.py lines 21-27),
fused with `readline`: `lineAcc` holds the bytes of the current line in
reverse.  When a full line (ending in byte 10) is complete, it is compared
against `"\r\n"` (stop), split on the first `":"` (it is a ValueError —
`MalformedHeader` — if there is none), and otherwise recorded as
`headers[name.casefold()] = value.strip()`.  If the stream is exhausted
mid-headers, `readline` next returns the empty string, which never equals
`"\r\n"` and fails to unpack on `":"`, so the loop always ends in the same
ValueError; hence the `[]` case is that error directly (the partial line,
whether or not it parses, cannot reach the terminator). -/
def parseHeadersGo : List Nat → List Nat → Dict → Except PyError (Dict × List Nat)
  | [], _, _ => .error .malformedHeader
  | b :: rest, lineAcc, acc =>
    if b = 10 then
      let line := lineAcc.reverse ++ [10]
      if line = [13, 10] then .ok (acc, rest)
      else
        match pySplit 58 1 line with
        | [name, value] => parseHeadersGo rest [] (dictInsert (casefold name) (pyStrip value) acc)
        | _ => .error .malformedHeader
    else parseHeadersGo rest (b :: lineAcc) acc

/-- The same traversal as `parseHeadersGo`, but recording the parsed
`(casefolded name, stripped value)` pairs in line order instead of folding
them into a dict; used to state which header line a dict binding comes
from. -/
def headerLinesGo : List Nat → List Nat → List (List Nat × List Nat) →
    Except PyError (List (List Nat × List Nat) × List Nat)
  | [], _, _ => .error .malformedHeader
  | b :: rest, lineAcc, ps =>
    if b = 10 then
      let line := lineAcc.reverse ++ [10]
      if line = [13, 10] then .ok (ps, rest)
      else
        match pySplit 58 1 line with
        | [name, value] => headerLinesGo rest [] (ps ++ [(casefold name, pyStrip value)])
        | _ => .error .malformedHeader
    else headerLinesGo rest (b :: lineAcc) ps

/-- One decimal digit byte. -/
def isDigitB (b : Nat) : Bool := 48 ≤ b && b ≤ 57

/-- Value of a nonempty all-digit byte string. -/
def digitsValGo : List Nat → Nat → Option Nat
  | [], acc => some acc
  | b :: rest, acc => if isDigitB b then digitsValGo rest (acc * 10 + (b - 48)) else none

/-- Value of a digit string, `none` if empty or containing a non-digit. -/
def digitsVal (s : List Nat) : Option Nat :=
  if s = [] then none else digitsValGo s 0

/-- Python `int(s)` on a decimal string: surrounding whitespace is
stripped, an optional sign is allowed, then decimal digits.  (Python also
accepts underscores between digits and non-ASCII digits; the code only
ever receives plain ASCII header values.) -/
def pyInt (s : List Nat) : Option Int :=
  match pyStrip s with
  | 43 :: rest => (digitsVal rest).map Int.ofNat
  | 45 :: rest => (digitsVal rest).map fun n => -(n : Int)
  | t => (digitsVal t).map Int.ofNat

/-- `file.read(n)` on a blocking buffered binary stream: for `n ≥ 0`
return `n` bytes, or everything left if the stream ends sooner; for
`n < 0` read to end of stream. -/
def pyRead (n : Int) (s : List Nat) : List Nat × List Nat :=
  if n < 0 then (s, []) else (s.take n.toNat, s.drop n.toNat)

/-- A parsed HTTP request (src/server.py lines 16-34): `method`, `url`
and `version` are the three fields of `reqline.split(" ", 2)` (the version
keeps the trailing CRLF, as in the source), `headers` is the dict built by
the header loop, and `body` is present iff a `content-length` header
was. -/
structure Request where
  method : List Nat
  url : List Nat
  version : List Nat
  headers : Dict
  body : Option (List Nat)
deriving DecidableEq

/-- The body-reading step of `handle_connection` (src/server.py lines
30-34): if `content-length` is a header, `int()` it (a non-integer raises
ValueError) and `read` exactly that many bytes as the body; otherwise the
body is `None`. -/
def readBody (m u v : List Nat) (hdrs : Dict) (s : List Nat) :
    Except PyError (Request × List Nat) :=
  match dictGet (strB "content-length") hdrs with
  | some lv =>
    match pyInt lv with
    | some n => .ok (⟨m, u, v, hdrs, some (pyRead n s).1⟩, (pyRead n s).2)
    | none => .error .valueError
  | none => .ok (⟨m, u, v, hdrs, none⟩, s)

/-- The request-parsing phase of `handle_connection` (src/server.py lines
15-34): read one line, split it on the first two spaces (a ValueError —
`MalformedRequestLine` — unless exactly three fields result), assert the
method is GET or POST, parse headers, then read the body.  Returns the
parsed request and the bytes of the stream left unconsumed. -/
def parseRequest (stream : List Nat) : Except PyError (Request × List Nat) :=
  match pySplit 32 2 (readline stream).1 with
  | [m, u, v] =>
    if m = strB "GET" ∨ m = strB "POST" then
      match parseHeadersGo (readline stream).2 [] [] with
      | .ok (hdrs, rest2) => readBody m u v hdrs rest2
      | .error e => .error e
    else .error .unsupportedMethod
  | _ => .error .malformedRequestLine

/-- `urllib.parse.unquote_plus` at the byte level: `+` (43) becomes space
(32), and `%` followed by two hex digits becomes the corresponding byte; a
`%` not followed by two hex digits stays literal.  (Python additionally
UTF-8-decodes the resulting bytes; on the valid-UTF-8 data the server
handles this is the identity on the byte sequence.) -/
def isHexB (b : Nat) : Bool :=
  (48 ≤ b && b ≤ 57) || (65 ≤ b && b ≤ 70) || (97 ≤ b && b ≤ 102)

/-- Numeric value of a hex digit byte. -/
def hexBVal (b : Nat) : Nat :=
  if b ≤ 57 then b - 48 else if b ≤ 70 then b - 55 else b - 87

/-- See `isHexB`: bytewise `urllib.parse.unquote_plus`. -/
def unquote_plus : List Nat → List Nat
  | [] => []
  | 43 :: rest => 32 :: unquote_plus rest
  | 37 :: a :: b :: rest =>
    if isHexB a ∧ isHexB b then (hexBVal a * 16 + hexBVal b) :: unquote_plus rest
    else 37 :: unquote_plus (a :: b :: rest)
  | c :: rest => c :: unquote_plus rest

/-- The loop of `form_decode` (src/server.py lines 70-76) over the fields
of `body.split("&")`: each field is split on the first `"="` (a ValueError
— `MissingEquals` — if there is none) and the unquoted pair is stored in
the params dict. -/
def form_decode_go : List (List Nat) → Dict → Except PyError Dict
  | [], m => .ok m
  | f :: fs, m =>
    match pySplit 61 1 f with
    | [name, value] => form_decode_go fs (dictInsert (unquote_plus name) (unquote_plus value) m)
    | _ => .error .missingEquals

/-- `form_decode` (src/server.py lines 68-76). -/
def form_decode (body : List Nat) : Except PyError Dict :=
  form_decode_go (pySplitAll 38 body) []

/-- The initial guest book (src/server.py line 11). -/
def ENTRIES : List (List Nat) := [strB "braheezy was here"]

/-- `show_comments` (src/server.py lines 57-66), with the global entry
list passed explicitly. -/
def show_comments (entries : List (List Nat)) : List Nat :=
  strB "<!doctype html>" ++
  (entries.map fun entry => strB "<p>" ++ entry ++ strB "</p>").flatten ++
  strB "<form action=add method=post>" ++
  strB "<p><input name=guest></p>" ++
  strB "<p><button>Sign the book!</button></p>" ++
  strB "</form>"

/-- `add_entry` (src/server.py lines 78-82): append `params['guest']` to
the entry list when present, then render the page; returns the updated
entry list together with the page. -/
def add_entry (params : Dict) (entries : List (List Nat)) :
    List (List Nat) × List Nat :=
  match dictGet (strB "guest") params with
  | some g => (entries ++ [g], show_comments (entries ++ [g]))
  | none => (entries, show_comments entries)

/-- `not_found` (src/server.py lines 84-88). -/
def not_found (url method : List Nat) : List Nat :=
  strB "<!doctype html>" ++
  strB "<h1>" ++ method ++ strB " " ++ url ++ strB " not found!</h1>"

/-- `do_request` (src/server.py lines 47-55), with the global entry list
passed and returned explicitly.  A `POST /add` whose body is `None`
raises AttributeError inside `form_decode` (`None.split`), modelled as
`noneTypeError`; a field without `=` propagates `missingEquals`. -/
def do_request (method url : List Nat) (headers : Dict) (body : Option (List Nat))
    (entries : List (List Nat)) :
    Except PyError ((List Nat × List Nat) × List (List Nat)) :=
  if method = strB "GET" ∧ url = strB "/" then
    .ok ((strB "200 OK", show_comments entries), entries)
  else if method = strB "POST" ∧ url = strB "/add" then
    match body with
    | none => .error .noneTypeError
    | some b =>
      match form_decode b with
      | .ok params =>
        .ok ((strB "200 OK", (add_entry params entries).2), (add_entry params entries).1)
      | .error e => .error e
  else
    .ok ((strB "404 Not Found", not_found url method), entries)

/-- CRLF bytes. -/
def CRLF : List Nat := [13, 10]

/-- The uppercase hex digit for a value below 16, as produced by Python's
`"X"` format. -/
def hexDigitChar (n : Nat) : Char :=
  if n < 10 then Char.ofNat (48 + n) else Char.ofNat (55 + n)

/-- Most-significant-first uppercase hex digits of `n`, empty for 0. -/
def hexRep (n : Nat) : List Char :=
  if n = 0 then [] else hexRep (n / 16) ++ [hexDigitChar (n % 16)]
termination_by n
decreasing_by exact Nat.div_lt_self (Nat.pos_of_ne_zero (by assumption)) (by omega)

/-- Python `f"{n:X}"`: uppercase hex digits, no leading zeros, no `0x`,
and the single digit `0` for zero. -/
def pyHexUpper (n : Nat) : List Char :=
  if n = 0 then ['0'] else hexRep n

/-- The UTF-8 (= ASCII) bytes of `f"{n:X}"`. -/
def hexB (n : Nat) : List Nat := (pyHexUpper n).map Char.toNat

/-- Numeric value of an uppercase hex digit character. -/
def hexCharVal (c : Char) : Nat :=
  if c.toNat ≤ 57 then c.toNat - 48 else c.toNat - 55

/-- The number denoted by a most-significant-first hex digit string. -/
def hexValue (l : List Char) : Nat :=
  l.foldl (fun a c => 16 * a + hexCharVal c) 0

/-- An uppercase hex digit character, `0`–`9` or `A`–`F`. -/
def isUpperHexDigitChar (c : Char) : Bool :=
  (48 ≤ c.toNat && c.toNat ≤ 57) || (65 ≤ c.toNat && c.toNat ≤ 70)

/-- The successive values of `chunk = compressed_data[i:i + chunk_size]`
in the loop of `GzipChunkedHandler.do_GET` (src/gzipServer.py lines
27-28): slices of length `S` taken from the front until the data runs
out.  (`range` with step 0 raises in Python; the `S = 0` case is given a
junk value and every theorem assumes `1 ≤ S`.) -/
def pyChunks (S : Nat) (data : List Nat) : List (List Nat) :=
  if S = 0 then []
  else if data = [] then []
  else data.take S :: pyChunks S (data.drop S)
termination_by data.length
decreasing_by
  simp only [List.length_drop]
  have : data ≠ [] := by assumption
  have : 0 < data.length := List.length_pos.mpr this
  omega

/-- The bytes written by the loop body of `do_GET` (src/gzipServer.py
lines 27-31): for each slice, `f"{len(chunk):X}\r\n"`, the slice, and
`"\r\n"`. -/
def writeChunkedData (S : Nat) (data : List Nat) : List Nat :=
  if S = 0 then []
  else if data = [] then []
  else
    hexB (data.take S).length ++ CRLF ++ data.take S ++ CRLF ++
      writeChunkedData S (data.drop S)
termination_by data.length
decreasing_by
  simp only [List.length_drop]
  have : data ≠ [] := by assumption
  have : 0 < data.length := List.length_pos.mpr this
  omega

/-- All the chunked-body bytes written by `do_GET` (src/gzipServer.py
lines 27-32): the data chunks followed by the terminal `b"0\r\n\r\n"`. -/
def writeChunked (S : Nat) (data : List Nat) : List Nat :=
  writeChunkedData S data ++ strB "0\r\n\r\n"

deriving instance DecidableEq for Except

/-- The value carried by the last pair of `ps` whose key is `k`, if any. -/
def lastHeaderValue (k : List Nat) : List (List Nat × List Nat) → Option (List Nat)
  | [] => none
  | p :: t =>
    match lastHeaderValue k t with
    | some v => some v
    | none => if p.1 = k then some p.2 else none

theorem dictGet_dictInsert (k k' v : List Nat) (m : Dict) :
    dictGet k (dictInsert k' v m) = if k' = k then some v else dictGet k m := by
  induction m with
  | nil => simp only [dictInsert, dictGet]
  | cons p t ih =>
    simp only [dictInsert]
    by_cases hp : p.1 = k'
    · simp only [hp, if_pos rfl, dictGet]
      by_cases hk : k' = k
      · simp [hk]
      · simp [hk, hp, dictGet]
    · simp only [hp, if_neg, dictGet, ih]
      by_cases hpk : p.1 = k
      · have : ¬ k' = k := fun h => hp (by rw [hpk, h])
        simp [hpk, this]
      · simp [hpk]

theorem dictGet_foldl_insert (k : List Nat) (ps : List (List Nat × List Nat)) (m : Dict) :
    dictGet k (ps.foldl (fun d p => dictInsert p.1 p.2 d) m)
      = (lastHeaderValue k ps).or (dictGet k m) := by
  induction ps generalizing m with
  | nil => simp [lastHeaderValue]
  | cons p t ih =>
    rw [List.foldl_cons, ih, dictGet_dictInsert]
    simp only [lastHeaderValue]
    cases h : lastHeaderValue k t with
    | some v => simp [Option.or]
    | none =>
      by_cases hp : p.1 = k
      · simp [hp, Option.or]
      · simp [hp, Option.or]

theorem readline_no_nl (l : List Nat) (hl : 10 ∉ l) (r : List Nat) :
    readline (l ++ 10 :: r) = (l ++ [10], r) := by
  induction l with
  | nil => simp [readline]
  | cons b t ih =>
    have hb : b ≠ 10 := fun h => hl (by simp [h])
    have ht : 10 ∉ t := fun h => hl (List.mem_cons_of_mem _ h)
    simp [readline, hb, ih ht]

theorem pySplitGo_zero (sep : Nat) (w acc : List Nat) :
    pySplitGo sep 0 w acc = [acc.reverse ++ w] := by
  induction w generalizing acc with
  | nil => simp [pySplitGo]
  | cons b t ih => simp [pySplitGo, ih]

theorem pySplitGo_no_sep (sep : Nat) (maxs : Nat) (w acc : List Nat) (hw : sep ∉ w) :
    pySplitGo sep maxs w acc = [acc.reverse ++ w] := by
  induction w generalizing acc with
  | nil => simp [pySplitGo]
  | cons b t ih =>
    have hb : ¬ b = sep := fun h => hw (by simp [h])
    have ht : sep ∉ t := fun h => hw (List.mem_cons_of_mem _ h)
    simp [pySplitGo, hb, ih (b :: acc) ht]

theorem pySplitGo_one_sep (sep : Nat) (n w acc : List Nat) (hn : sep ∉ n) :
    pySplitGo sep 1 (n ++ sep :: w) acc = [acc.reverse ++ n, w] := by
  induction n generalizing acc with
  | nil => simp [pySplitGo, pySplitGo_zero]
  | cons b t ih =>
    have hb : ¬ b = sep := fun h => hn (by simp [h])
    have ht : sep ∉ t := fun h => hn (List.mem_cons_of_mem _ h)
    simp [pySplitGo, hb, ih (b :: acc) ht]

theorem pySplitGo_length_le (sep : Nat) (maxs : Nat) (s acc : List Nat) :
    (pySplitGo sep maxs s acc).length ≤ maxs + 1 := by
  induction s generalizing maxs acc with
  | nil => simp [pySplitGo]
  | cons b t ih =>
    simp only [pySplitGo]
    by_cases h : b = sep ∧ 0 < maxs
    · rw [if_pos h]
      obtain ⟨-, h2⟩ := h
      have := ih (maxs - 1) []
      simp only [List.length_cons]
      omega
    · rw [if_neg h]
      exact ih maxs (b :: acc)

theorem pySplit_length_le (sep maxs : Nat) (s : List Nat) :
    (pySplit sep maxs s).length ≤ maxs + 1 :=
  pySplitGo_length_le sep maxs s []

theorem dropWhile_all {p : Nat → Bool} (w l : List Nat) (hw : ∀ a ∈ w, p a = true) :
    List.dropWhile p (w ++ l) = List.dropWhile p l := by
  induction w with
  | nil => simp
  | cons b t ih =>
    simp only [List.cons_append, List.dropWhile_cons, hw b (by simp), if_pos]
    exact ih fun a ha => hw a (List.mem_cons_of_mem _ ha)

theorem pyStrip_append_crlf (v : List Nat) : pyStrip (v ++ [13, 10]) = pyStrip v := by
  unfold pyStrip
  rw [List.reverse_append]
  rw [show (13 :: 10 :: List.nil).reverse = [10, 13] from rfl]
  rw [dropWhile_all [10, 13] v.reverse (by decide)]

theorem parseHeadersGo_line (l : List Nat) (hl : 10 ∉ l) (rest la : List Nat) (acc : Dict) :
    parseHeadersGo (l ++ 10 :: rest) la acc =
      (if la.reverse ++ l ++ [10] = [13, 10] then .ok (acc, rest)
       else
         match pySplit 58 1 (la.reverse ++ l ++ [10]) with
         | [name, value] => parseHeadersGo rest [] (dictInsert (casefold name) (pyStrip value) acc)
         | _ => .error .malformedHeader) := by
  induction l generalizing la with
  | nil => simp [parseHeadersGo]
  | cons b t ih =>
    have hb : ¬ b = 10 := fun h => hl (by simp [h])
    have ht : 10 ∉ t := fun h => hl (List.mem_cons_of_mem _ h)
    simp only [List.cons_append, parseHeadersGo, if_neg hb, List.append_eq]
    rw [ih ht (b :: la)]
    simp [List.append_assoc]

theorem headerLinesGo_line (l : List Nat) (hl : 10 ∉ l) (rest la : List Nat)
    (ps : List (List Nat × List Nat)) :
    headerLinesGo (l ++ 10 :: rest) la ps =
      (if la.reverse ++ l ++ [10] = [13, 10] then .ok (ps, rest)
       else
         match pySplit 58 1 (la.reverse ++ l ++ [10]) with
         | [name, value] => headerLinesGo rest [] (ps ++ [(casefold name, pyStrip value)])
         | _ => .error .malformedHeader) := by
  induction l generalizing la with
  | nil => simp [headerLinesGo]
  | cons b t ih =>
    have hb : ¬ b = 10 := fun h => hl (by simp [h])
    have ht : 10 ∉ t := fun h => hl (List.mem_cons_of_mem _ h)
    simp only [List.cons_append, headerLinesGo, if_neg hb, List.append_eq]
    rw [ih ht (b :: la)]
    simp [List.append_assoc]

theorem headerLinesGo_append (s : List Nat) (la : List Nat) (ps : List (List Nat × List Nat)) :
    headerLinesGo s la ps = (headerLinesGo s la []).map fun pr => (ps ++ pr.1, pr.2) := by
  induction s generalizing la ps with
  | nil => simp [headerLinesGo, Except.map]
  | cons b rest ih =>
    simp only [headerLinesGo]
    by_cases hb : b = 10
    · simp only [if_pos hb]
      by_cases hline : la.reverse ++ [10] = [13, 10]
      · simp [hline, Except.map]
      · simp only [if_neg hline]
        split
        · next name value heq =>
          rw [ih [] (ps ++ [(casefold name, pyStrip value)]),
            ih [] ([] ++ [(casefold name, pyStrip value)])]
          cases headerLinesGo rest [] [] <;> simp [Except.map]
        · next => simp [Except.map]
    · simp only [if_neg hb]
      exact ih (b :: la) ps

theorem parseHeadersGo_eq_lines (s la : List Nat) (acc : Dict) :
    parseHeadersGo s la acc
      = (headerLinesGo s la []).map fun pr =>
          (pr.1.foldl (fun d p => dictInsert p.1 p.2 d) acc, pr.2) := by
  induction s generalizing la acc with
  | nil => simp [parseHeadersGo, headerLinesGo, Except.map]
  | cons b rest ih =>
    simp only [parseHeadersGo, headerLinesGo]
    by_cases hb : b = 10
    · simp only [if_pos hb]
      by_cases hline : la.reverse ++ [10] = [13, 10]
      · simp [hline, Except.map]
      · simp only [if_neg hline]
        split
        · next name value heq =>
          rw [ih [] (dictInsert (casefold name) (pyStrip value) acc)]
          rw [headerLinesGo_append rest [] ([] ++ [(casefold name, pyStrip value)])]
          cases headerLinesGo rest [] [] <;> simp [Except.map]
        · next => simp [Except.map]
    · simp only [if_neg hb]
      exact ih (b :: la) acc

theorem parseHeadersGo_error (s : List Nat) :
    ∀ (la : List Nat) (acc : Dict) (e : PyError),
      parseHeadersGo s la acc = .error e → e = .malformedHeader := by
  induction s with
  | nil => intro la acc e h; cases h; rfl
  | cons b rest ih =>
    intro la acc e h
    simp only [parseHeadersGo] at h
    by_cases hb : b = 10
    · simp only [hb, if_pos rfl] at h
      by_cases hline : la.reverse ++ [10] = [13, 10]
      · simp [hline] at h
      · simp only [hline, if_neg, not_false_iff] at h
        cases hsp : pySplit 58 1 (la.reverse ++ [10]) with
        | nil => rw [hsp] at h; cases h; rfl
        | cons x xs =>
          cases xs with
          | nil => rw [hsp] at h; cases h; rfl
          | cons y ys =>
            cases ys with
            | nil => rw [hsp] at h; exact ih _ _ _ h
            | cons z zs => rw [hsp] at h; cases h; rfl
    · simp only [hb, if_neg, not_false_iff] at h
      exact ih _ _ _ h

/-- The wire bytes of a list of header lines `name: value` (the value as
given, typically written with a leading space), each terminated by CRLF. -/
def headerBytes (hs : List (List Nat × List Nat)) : List Nat :=
  (hs.map fun p => p.1 ++ [58] ++ p.2 ++ CRLF).flatten

/-- A whole request on the wire: request line, header lines, blank line,
body bytes. -/
def mkRequestStream (rl : List Nat) (hs : List (List Nat × List Nat)) (body : List Nat) :
    List Nat :=
  rl ++ CRLF ++ headerBytes hs ++ CRLF ++ body

theorem parseHeadersGo_wellFormed (hs : List (List Nat × List Nat)) (body : List Nat)
    (acc : Dict) (hwf : ∀ p ∈ hs, 10 ∉ p.1 ∧ 58 ∉ p.1 ∧ 10 ∉ p.2) :
    parseHeadersGo (headerBytes hs ++ [13, 10] ++ body) [] acc
      = .ok (hs.foldl (fun d p => dictInsert (casefold p.1) (pyStrip p.2) d) acc, body) := by
  induction hs generalizing acc with
  | nil => simp [headerBytes, parseHeadersGo]
  | cons p t ih =>
    obtain ⟨hn10, hn58, hv10⟩ := hwf p (by simp)
    have hwt : ∀ q ∈ t, 10 ∉ q.1 ∧ 58 ∉ q.1 ∧ 10 ∉ q.2 :=
      fun q hq => hwf q (List.mem_cons_of_mem _ hq)
    have hstream : headerBytes (p :: t) ++ [13, 10] ++ body
        = (p.1 ++ [58] ++ p.2 ++ [13]) ++ 10 :: (headerBytes t ++ [13, 10] ++ body) := by
      simp [headerBytes, CRLF, List.append_assoc]
    rw [hstream]
    have hl : 10 ∉ p.1 ++ [58] ++ p.2 ++ [13] := by
      intro hc
      rcases List.mem_append.mp hc with hc | hc
      · rcases List.mem_append.mp hc with hc | hc
        · rcases List.mem_append.mp hc with hc | hc
          · exact hn10 hc
          · simp at hc
        · exact hv10 hc
      · simp at hc
    rw [parseHeadersGo_line _ hl]
    have hline58 : (58 : Nat) ∈ [].reverse ++ (p.1 ++ [58] ++ p.2 ++ [13]) ++ [10] := by simp
    have hne : ¬ ([].reverse ++ (p.1 ++ [58] ++ p.2 ++ [13]) ++ [10] : List Nat) = [13, 10] := by
      intro hc
      rw [hc] at hline58
      simp at hline58
    rw [if_neg hne]
    have hsplit : pySplit 58 1 ([].reverse ++ (p.1 ++ [58] ++ p.2 ++ [13]) ++ [10])
        = [p.1, p.2 ++ [13, 10]] := by
      have : ([].reverse ++ (p.1 ++ [58] ++ p.2 ++ [13]) ++ [10] : List Nat)
          = p.1 ++ 58 :: (p.2 ++ [13, 10]) := by simp [List.append_assoc]
      rw [this]
      have := pySplitGo_one_sep 58 p.1 (p.2 ++ [13, 10]) [] hn58
      simpa [pySplit] using this
    rw [hsplit]
    show parseHeadersGo (headerBytes t ++ [13, 10] ++ body) []
        (dictInsert (casefold p.1) (pyStrip (p.2 ++ [13, 10])) acc)
      = .ok (List.foldl (fun d p => dictInsert (casefold p.1) (pyStrip p.2) d) acc (p :: t), body)
    rw [pyStrip_append_crlf, List.foldl_cons]
    exact ih _ hwt

theorem readBody_ok_inv (m u v : List Nat) (hdrs : Dict) (s : List Nat) (req : Request)
    (rest : List Nat) (h : readBody m u v hdrs s = .ok (req, rest)) :
    req.method = m ∧ req.url = u ∧ req.version = v ∧ req.headers = hdrs := by
  unfold readBody at h
  split at h
  · split at h
    · cases h
      exact ⟨rfl, rfl, rfl, rfl⟩
    · cases h
  · cases h
    exact ⟨rfl, rfl, rfl, rfl⟩

theorem readBody_error (m u v : List Nat) (hdrs : Dict) (s : List Nat) (e : PyError)
    (h : readBody m u v hdrs s = .error e) : e = .valueError := by
  unfold readBody at h
  split at h
  · split at h
    · cases h
    · cases h; rfl
  · cases h

theorem parseRequest_ok_inv (stream : List Nat) (req : Request) (rest : List Nat)
    (h : parseRequest stream = .ok (req, rest)) :
    pySplit 32 2 (readline stream).1 = [req.method, req.url, req.version] ∧
    ∃ raw, parseHeadersGo (readline stream).2 [] [] = .ok (req.headers, raw) ∧
      readBody req.method req.url req.version req.headers raw = .ok (req, rest) := by
  unfold parseRequest at h
  split at h
  · next m u v heq =>
    split at h
    · split at h
      · next hdrs raw hph =>
        obtain ⟨h1, h2, h3, h4⟩ := readBody_ok_inv _ _ _ _ _ _ _ h
        refine ⟨by rw [heq, h1, h2, h3], raw, by rw [h4]; exact hph, ?_⟩
        rw [h1, h2, h3, h4]
        exact h
      · cases h
    · cases h
  · cases h

/-- C6: the request line is split on the first two spaces; fewer than 3
resulting tokens is a `MalformedRequestLine` failure (and conversely that
failure arises only then), and with exactly 3 tokens the first is the
method, the second the target and the remainder the version of any
successfully parsed request. -/
theorem request_line_tokens (stream : List Nat) :
    (parseRequest stream = .error .malformedRequestLine ↔
      (pySplit 32 2 (readline stream).1).length < 3) ∧
    (∀ m u v req rest, pySplit 32 2 (readline stream).1 = [m, u, v] →
      parseRequest stream = .ok (req, rest) →
      req.method = m ∧ req.url = u ∧ req.version = v) := by
  constructor
  · constructor
    · intro h
      unfold parseRequest at h
      split at h
      · next m u v heq =>
        exfalso
        split at h
        · split at h
          · exact PyError.noConfusion (readBody_error _ _ _ _ _ _ h)
          · next e hph =>
            injection h with h'
            rw [parseHeadersGo_error _ _ _ _ hph] at h'
            exact PyError.noConfusion h'
        · injection h with h'
          exact PyError.noConfusion h'
      · next hne =>
        have hle := pySplit_length_le 32 2 (readline stream).1
        by_contra hlt
        push_neg at hlt
        have h3 : (pySplit 32 2 (readline stream).1).length = 3 := le_antisymm hle hlt
        obtain ⟨a, b, c, habc⟩ := List.length_eq_three.mp h3
        exact hne a b c habc
    · intro hlt
      unfold parseRequest
      split
      · next m u v heq => rw [heq] at hlt; simp at hlt
      · rfl
  · intro m u v req rest hsplit h
    obtain ⟨h1, -⟩ := parseRequest_ok_inv _ _ _ h
    rw [hsplit] at h1
    injection h1 with e1 h1
    injection h1 with e2 h1
    injection h1 with e3 h1
    exact ⟨e1.symm, e2.symm, e3.symm⟩

/-- C7: parsing fails with `UnsupportedMethod` exactly when the request
line yields three tokens whose first is neither GET nor POST (the
modelled `assert method in ["GET", "POST"]`), and on every successfully
parsed request the asserted condition holds. -/
theorem method_assertion_spec (stream : List Nat) :
    (parseRequest stream = .error .unsupportedMethod ↔
      ∃ m u v, pySplit 32 2 (readline stream).1 = [m, u, v] ∧
        m ≠ strB "GET" ∧ m ≠ strB "POST") ∧
    (∀ req rest, parseRequest stream = .ok (req, rest) →
      req.method = strB "GET" ∨ req.method = strB "POST") := by
  constructor
  · constructor
    · intro h
      unfold parseRequest at h
      split at h
      · next m u v heq =>
        split at h
        · exfalso
          split at h
          · exact PyError.noConfusion (readBody_error _ _ _ _ _ _ h)
          · next e hph =>
            injection h with h'
            rw [parseHeadersGo_error _ _ _ _ hph] at h'
            exact PyError.noConfusion h'
        · next hm =>
          push_neg at hm
          exact ⟨m, u, v, heq, hm.1, hm.2⟩
      · injection h with h'
        exact PyError.noConfusion h'
    · rintro ⟨m, u, v, heq, h1, h2⟩
      unfold parseRequest
      rw [heq]
      split
      · next m' u' v' heq2 =>
        obtain ⟨e1, e2, e3⟩ : m = m' ∧ u = u' ∧ v = v' := by
          injection heq2 with a1 b1
          injection b1 with a2 b2
          injection b2 with a3 _
          exact ⟨a1, a2, a3⟩
        subst e1
        rw [if_neg (not_or.mpr ⟨h1, h2⟩)]
      · next hne => exact absurd rfl (hne m u v)
  · intro req rest h
    unfold parseRequest at h
    split at h
    · next m u v heq =>
      split at h
      · next hm =>
        split at h
        · next hdrs raw hph =>
          obtain ⟨h1, -, -, -⟩ := readBody_ok_inv _ _ _ _ _ _ _ h
          rw [h1]
          exact hm
        · cases h
      · cases h
    · cases h

/-- C3 counterexample: a request with the duplicate (after case-folding)
header lines `Foo: 1` and `foo: 2` parses to a header map binding `foo`
to `"2"`, the value of the LAST such line — not to `"1"`, the value of
the first, as the claim states. -/
theorem headers_first_wins_counterexample :
    parseRequest (strB "GET / HTTP/1.0\r\nFoo: 1\r\nfoo: 2\r\n\r\n")
      = .ok (⟨strB "GET", strB "/", strB "HTTP/1.0\r\n", [(strB "foo", strB "2")], none⟩, []) ∧
    dictGet (strB "foo") [(strB "foo", strB "2")] = some (strB "2") ∧
    ¬ dictGet (strB "foo") [(strB "foo", strB "2")] = some (strB "1") :=
  ⟨by decide, by decide, by decide⟩

/-- C3 amended: for every parsed request and every (case-folded) header
name, the parsed header map binds that name to the value of the LAST
header line whose case-folded name equals it (last occurrence wins;
duplicates are not merged). -/
theorem headers_last_occurrence_wins (stream : List Nat) (req : Request) (rest : List Nat)
    (k : List Nat) (h : parseRequest stream = .ok (req, rest)) :
    ∃ pairs raw, headerLinesGo (readline stream).2 [] [] = .ok (pairs, raw) ∧
      dictGet k req.headers = lastHeaderValue k pairs := by
  obtain ⟨-, raw, hph, -⟩ := parseRequest_ok_inv _ _ _ h
  rw [parseHeadersGo_eq_lines] at hph
  cases hl : headerLinesGo (readline stream).2 [] [] with
  | error e => rw [hl] at hph; cases hph
  | ok pr =>
    rw [hl] at hph
    simp only [Except.map] at hph
    injection hph with hph
    have hhd : req.headers = pr.1.foldl (fun d p => dictInsert p.1 p.2 d) [] := by
      have := congrArg Prod.fst hph
      exact this.symm
    refine ⟨pr.1, pr.2, rfl, ?_⟩
    rw [hhd, dictGet_foldl_insert]
    cases lastHeaderValue k pr.1 <;> simp [Option.or, dictGet]

/-- C4 counterexample: a request declaring `content-length: 5` whose
stream closes after only 3 body bytes parses SUCCESSFULLY with the
3-byte body `abc` — the code returns the shorter body instead of failing
(there is no `BodyTruncated` error path in the implementation). -/
theorem body_truncated_counterexample :
    parseRequest (strB "POST / HTTP/1.0\r\ncontent-length: 5\r\n\r\nabc")
      = .ok (⟨strB "POST", strB "/", strB "HTTP/1.0\r\n",
          [(strB "content-length", strB "5")], some (strB "abc")⟩, []) ∧
    (strB "abc").length = 3 :=
  ⟨by decide, by decide⟩

/-- C4 amended: when the headers declare `content-length` n ≥ 0, the
parser takes `n` bytes from the stream left after the header section —
so the body has length exactly `n` whenever at least `n` bytes remain,
and when the stream closes earlier the parser returns the shorter body
of all remaining bytes rather than failing. -/
theorem body_read_semantics (stream : List Nat) (req : Request) (rest : List Nat)
    (lv : List Nat) (n : Int) (h : parseRequest stream = .ok (req, rest))
    (hl : dictGet (strB "content-length") req.headers = some lv)
    (hn : pyInt lv = some n) (hn0 : 0 ≤ n) :
    ∃ raw, parseHeadersGo (readline stream).2 [] [] = .ok (req.headers, raw) ∧
      req.body = some (raw.take n.toNat) ∧
      rest = raw.drop n.toNat ∧
      (req.body.getD []).length = min n.toNat raw.length := by
  obtain ⟨-, raw, hph, hrb⟩ := parseRequest_ok_inv _ _ _ h
  refine ⟨raw, hph, ?_⟩
  unfold readBody at hrb
  split at hrb
  case _ lv' heq =>
    rw [hl] at heq
    injection heq with heq
    subst heq
    split at hrb
    case _ n' heq2 =>
      rw [hn] at heq2
      injection heq2 with heq2
      subst heq2
      have hneg : ¬ n < 0 := not_lt.mpr hn0
      simp only [pyRead, if_neg hneg] at hrb
      injection hrb with hrb
      have hbody : req.body = some (raw.take n.toNat) := by
        have := congrArg (fun p => (Prod.fst p).body) hrb
        exact this.symm
      have hrest : rest = raw.drop n.toNat := by
        have := congrArg Prod.snd hrb
        exact this.symm
      refine ⟨hbody, hrest, ?_⟩
      rw [hbody]
      simp [List.length_take]
    case _ heq2 => rw [hn] at heq2; cases heq2
  case _ heq => rw [hl] at heq; cases heq

/-- C8: two requests that are identical except for the letter case of
header names (same request line, same values, names equal after
case-folding) parse identically — same header map and same body-reading
behavior — because every header key is case-folded and every value
stripped. -/
theorem header_case_insensitivity (rl : List Nat) (hs1 hs2 : List (List Nat × List Nat))
    (body : List Nat) (hrl : 10 ∉ rl)
    (hwf1 : ∀ p ∈ hs1, 10 ∉ p.1 ∧ 58 ∉ p.1 ∧ 10 ∉ p.2)
    (hwf2 : ∀ p ∈ hs2, 10 ∉ p.1 ∧ 58 ∉ p.1 ∧ 10 ∉ p.2)
    (hsame : hs1.map (fun p => (casefold p.1, p.2)) = hs2.map fun p => (casefold p.1, p.2)) :
    parseRequest (mkRequestStream rl hs1 body) = parseRequest (mkRequestStream rl hs2 body) := by
  have hstream : ∀ hs : List (List Nat × List Nat),
      mkRequestStream rl hs body = (rl ++ [13]) ++ 10 :: (headerBytes hs ++ [13, 10] ++ body) := by
    intro hs
    simp [mkRequestStream, CRLF, List.append_assoc]
  have hrl13 : 10 ∉ rl ++ [13] := by
    intro hc
    rcases List.mem_append.mp hc with hc | hc
    · exact hrl hc
    · simp at hc
  have hread : ∀ hs, readline (mkRequestStream rl hs body)
      = ((rl ++ [13]) ++ [10], headerBytes hs ++ [13, 10] ++ body) := by
    intro hs
    rw [hstream hs, readline_no_nl _ hrl13]
  have hdicts : hs1.foldl (fun d p => dictInsert (casefold p.1) (pyStrip p.2) d) ([] : Dict)
      = hs2.foldl (fun d p => dictInsert (casefold p.1) (pyStrip p.2) d) [] := by
    have h1 : ∀ hs : List (List Nat × List Nat),
        hs.foldl (fun d p => dictInsert (casefold p.1) (pyStrip p.2) d) ([] : Dict)
          = (hs.map fun p => (casefold p.1, p.2)).foldl
              (fun d q => dictInsert q.1 (pyStrip q.2) d) [] := by
      intro hs
      rw [List.foldl_map]
    rw [h1, h1, hsame]
  unfold parseRequest
  rw [hread hs1, hread hs2]
  dsimp only
  rw [parseHeadersGo_wellFormed hs1 body [] hwf1, parseHeadersGo_wellFormed hs2 body [] hwf2,
    hdicts]

theorem pySplit_no_sep (sep : Nat) (f : List Nat) (h : sep ∉ f) : pySplit sep 1 f = [f] := by
  simpa [pySplit] using pySplitGo_no_sep sep 1 f [] h

theorem pySplitGo_first_mem (sep : Nat) (f : List Nat) (h : sep ∈ f) (acc : List Nat) :
    pySplitGo sep 1 f acc
      = [acc.reverse ++ f.takeWhile (· != sep), (f.dropWhile (· != sep)).tail] := by
  induction f generalizing acc with
  | nil => cases h
  | cons b t ih =>
    by_cases hb : b = sep
    · subst hb
      simp [pySplitGo, pySplitGo_zero, List.takeWhile_cons, List.dropWhile_cons]
    · have ht : sep ∈ t := by
        rcases List.mem_cons.mp h with hc | hc
        · exact absurd hc.symm hb
        · exact hc
      have hbne : (b != sep) = true := bne_iff_ne.mpr hb
      simp only [pySplitGo, List.takeWhile_cons, List.dropWhile_cons, hbne, if_true,
        cond_true]
      rw [if_neg (by simp [hb]), ih ht (b :: acc)]
      simp [List.append_assoc]

theorem pySplit_first_mem (sep : Nat) (f : List Nat) (h : sep ∈ f) :
    pySplit sep 1 f = [f.takeWhile (· != sep), (f.dropWhile (· != sep)).tail] := by
  simpa [pySplit] using pySplitGo_first_mem sep f h []

theorem form_decode_go_step (f : List Nat) (t : List (List Nat)) (m : Dict)
    (hf : (61 : Nat) ∈ f) :
    form_decode_go (f :: t) m
      = form_decode_go t (dictInsert (unquote_plus (f.takeWhile (· != 61)))
          (unquote_plus ((f.dropWhile (· != 61)).tail)) m) := by
  simp only [form_decode_go, pySplit_first_mem 61 f hf]

theorem form_decode_go_no_eq (f : List Nat) (t : List (List Nat)) (m : Dict)
    (hf : (61 : Nat) ∉ f) :
    form_decode_go (f :: t) m = .error .missingEquals := by
  simp only [form_decode_go, pySplit_no_sep 61 f hf]

theorem form_decode_go_error_iff (fs : List (List Nat)) (m : Dict) :
    (∃ e, form_decode_go fs m = .error e) ↔ ∃ f ∈ fs, (61 : Nat) ∉ f := by
  induction fs generalizing m with
  | nil => simp [form_decode_go]
  | cons f t ih =>
    by_cases hf : (61 : Nat) ∈ f
    · rw [form_decode_go_step f t m hf, ih]
      constructor
      · rintro ⟨g, hg, hng⟩
        exact ⟨g, List.mem_cons_of_mem _ hg, hng⟩
      · rintro ⟨g, hg, hng⟩
        rcases List.mem_cons.mp hg with rfl | hg
        · exact absurd hf hng
        · exact ⟨g, hg, hng⟩
    · constructor
      · intro _
        exact ⟨f, by simp, hf⟩
      · intro _
        exact ⟨.missingEquals, form_decode_go_no_eq f t m hf⟩

theorem form_decode_go_error_eq (fs : List (List Nat)) (m : Dict) (e : PyError)
    (h : form_decode_go fs m = .error e) : e = .missingEquals := by
  induction fs generalizing m with
  | nil => cases h
  | cons f t ih =>
    simp only [form_decode_go] at h
    split at h
    · exact ih _ h
    · cases h
      rfl

theorem form_decode_go_ok (fs : List (List Nat)) (m : Dict)
    (hall : ∀ f ∈ fs, (61 : Nat) ∈ f) :
    form_decode_go fs m = .ok (fs.foldl (fun d f =>
      dictInsert (unquote_plus (f.takeWhile (· != 61)))
        (unquote_plus ((f.dropWhile (· != 61)).tail)) d) m) := by
  induction fs generalizing m with
  | nil => simp [form_decode_go]
  | cons f t ih =>
    rw [form_decode_go_step f t m (hall f (by simp)), List.foldl_cons]
    exact ih _ fun g hg => hall g (List.mem_cons_of_mem _ hg)

/-- C5: form decoding splits the body on `&`; it fails with
`MissingEquals` exactly when some field contains no `=`; otherwise it
returns the dict of key/value pairs obtained by splitting each field at
its first `=` and plus/percent-decoding both halves; and in particular
`decode("guest=Hello+World%21")` yields `guest ↦ "Hello World!"`. -/
theorem form_decode_spec :
    (∀ body : List Nat,
      (form_decode body = .error .missingEquals ↔
        ∃ f ∈ pySplitAll 38 body, (61 : Nat) ∉ f) ∧
      ((∀ f ∈ pySplitAll 38 body, (61 : Nat) ∈ f) →
        form_decode body = .ok ((pySplitAll 38 body).foldl (fun d f =>
          dictInsert (unquote_plus (f.takeWhile (· != 61)))
            (unquote_plus ((f.dropWhile (· != 61)).tail)) d) []))) ∧
    form_decode (strB "guest=Hello+World%21") = .ok [(strB "guest", strB "Hello World!")] := by
  refine ⟨fun body => ⟨⟨?_, ?_⟩, ?_⟩, by decide⟩
  · intro h
    exact (form_decode_go_error_iff _ []).mp ⟨_, h⟩
  · intro h
    obtain ⟨e, he⟩ := (form_decode_go_error_iff (pySplitAll 38 body) []).mpr h
    rw [form_decode_go_error_eq _ _ _ he] at he
    exact he
  · intro h
    exact form_decode_go_ok _ [] h

/-- C10: whenever the dispatcher returns normally, the status string is
exactly `200 OK` or exactly `404 Not Found`. -/
theorem do_request_status_invariant (method url : List Nat) (headers : Dict)
    (body : Option (List Nat)) (entries : List (List Nat)) (st out : List Nat)
    (entries' : List (List Nat))
    (h : do_request method url headers body entries = .ok ((st, out), entries')) :
    st = strB "200 OK" ∨ st = strB "404 Not Found" := by
  unfold do_request at h
  split_ifs at h with h1 h2
  · left
    injection h with h'
    exact (congrArg (fun p => p.1.1) h').symm
  · split at h
    · cases h
    · split at h
      · left
        injection h with h'
        exact (congrArg (fun p => p.1.1) h').symm
      · cases h
  · right
    injection h with h'
    exact (congrArg (fun p => p.1.1) h').symm

/-- C9: the guest-book entry list is unchanged by every normally
returning request except a POST to /add whose decoded form binds
`guest`; in that single case exactly the decoded `guest` value is
appended at the end (second conjunct), keeping all previous entries and
their order. -/
theorem entries_frame_condition (method url : List Nat) (headers : Dict)
    (body : Option (List Nat)) (entries : List (List Nat)) (st out : List Nat)
    (entries' : List (List Nat))
    (h : do_request method url headers body entries = .ok ((st, out), entries')) :
    ((method = strB "POST" ∧ url = strB "/add" ∧
      ∃ b params g, body = some b ∧ form_decode b = .ok params ∧
        dictGet (strB "guest") params = some g ∧ entries' = entries ++ [g]) ∨
    entries' = entries) ∧
    (∀ bb params g, body = some bb → form_decode bb = .ok params →
      dictGet (strB "guest") params = some g →
      method = strB "POST" → url = strB "/add" → entries' = entries ++ [g]) := by
  unfold do_request at h
  split_ifs at h with h1 h2
  · constructor
    · right
      injection h with h'
      exact (congrArg Prod.snd h').symm
    · intro bb params g _ _ _ hm _
      exact absurd (h1.1.symm.trans hm) (by decide)
  · split at h
    · cases h
    · next b =>
      split at h
      · next params hfd =>
        unfold add_entry at h
        split at h
        · next g hg =>
          have happ : entries' = entries ++ [g] := by
            injection h with h'
            exact (congrArg Prod.snd h').symm
          constructor
          · exact Or.inl ⟨h2.1, h2.2, b, params, g, rfl, hfd, hg, happ⟩
          · intro bb params' g' hbb hfd' hg' _ _
            injection hbb with hbb
            subst hbb
            rw [hfd] at hfd'
            injection hfd' with hfd'
            subst hfd'
            rw [hg] at hg'
            injection hg' with hg'
            subst hg'
            exact happ
        · next hg =>
          constructor
          · right
            injection h with h'
            exact (congrArg Prod.snd h').symm
          · intro bb params' g' hbb hfd' hg' _ _
            injection hbb with hbb
            subst hbb
            rw [hfd] at hfd'
            injection hfd' with hfd'
            subst hfd'
            rw [hg] at hg'
            cases hg'
      · next e hfd =>
        cases h
  · constructor
    · right
      injection h with h'
      exact (congrArg Prod.snd h').symm
    · intro bb params g _ _ _ hm hu
      exact absurd ⟨hm, hu⟩ h2

theorem pyChunks_flatten (S : Nat) (hS : 1 ≤ S) (data : List Nat) :
    (pyChunks S data).flatten = data := by
  have key : ∀ n (d : List Nat), d.length ≤ n → (pyChunks S d).flatten = d := by
    intro n
    induction n with
    | zero =>
      intro d hd
      have : d = [] := List.eq_nil_of_length_eq_zero (Nat.le_zero.mp hd)
      subst this
      rw [pyChunks]
      simp
    | succ n ih =>
      intro d hd
      rw [pyChunks]
      by_cases hdn : d = []
      · simp [hdn]
      · rw [if_neg (by omega), if_neg hdn]
        have hlen : 0 < d.length := List.length_pos.mpr hdn
        have hrec : (d.drop S).length ≤ n := by
          simp only [List.length_drop]
          omega
        rw [List.flatten_cons, ih (d.drop S) hrec, List.take_append_drop]
  exact key data.length data le_rfl

theorem pyChunks_length (S : Nat) (hS : 1 ≤ S) (data : List Nat) :
    (pyChunks S data).length = (data.length + S - 1) / S := by
  have key : ∀ n (d : List Nat), d.length ≤ n →
      (pyChunks S d).length = (d.length + S - 1) / S := by
    intro n
    induction n with
    | zero =>
      intro d hd
      have : d = [] := List.eq_nil_of_length_eq_zero (Nat.le_zero.mp hd)
      subst this
      rw [pyChunks]
      simp [Nat.div_eq_of_lt (by omega : S - 1 < S)]
    | succ n ih =>
      intro d hd
      rw [pyChunks]
      by_cases hdn : d = []
      · simp [hdn, Nat.div_eq_of_lt (by omega : S - 1 < S)]
      · rw [if_neg (by omega), if_neg hdn]
        have hlen : 0 < d.length := List.length_pos.mpr hdn
        have hrec : (d.drop S).length ≤ n := by
          simp only [List.length_drop]
          omega
        rw [List.length_cons, ih (d.drop S) hrec]
        simp only [List.length_drop]
        have hright : d.length + S - 1 = (d.length - 1) + S := by omega
        rw [hright, Nat.add_div_right _ (by omega : 0 < S)]
        by_cases hLS : S < d.length
        · have heq2 : d.length - S + S - 1 = d.length - 1 := by omega
          rw [heq2]
        · have h1 : d.length - S = 0 := by omega
          rw [h1]
          rw [Nat.div_eq_of_lt (by omega : 0 + S - 1 < S),
            Nat.div_eq_of_lt (by omega : d.length - 1 < S)]
  exact key data.length data le_rfl

theorem pyChunks_ne_nil (S : Nat) (hS : 1 ≤ S) (data : List Nat) (hd : data ≠ []) :
    pyChunks S data ≠ [] := by
  rw [pyChunks, if_neg (by omega), if_neg hd]
  simp

theorem pyChunks_dropLast (S : Nat) (hS : 1 ≤ S) (data : List Nat) :
    ∀ c ∈ (pyChunks S data).dropLast, c.length = S := by
  have key : ∀ n (d : List Nat), d.length ≤ n →
      ∀ c ∈ (pyChunks S d).dropLast, c.length = S := by
    intro n
    induction n with
    | zero =>
      intro d hd
      have : d = [] := List.eq_nil_of_length_eq_zero (Nat.le_zero.mp hd)
      subst this
      rw [pyChunks]
      simp
    | succ n ih =>
      intro d hd c hc
      rw [pyChunks, if_neg (by omega)] at hc
      by_cases hdn : d = []
      · simp [hdn] at hc
      · rw [if_neg hdn] at hc
        have hlen : 0 < d.length := List.length_pos.mpr hdn
        have hrec : (d.drop S).length ≤ n := by
          simp only [List.length_drop]
          omega
        cases hrest : pyChunks S (d.drop S) with
        | nil => rw [hrest] at hc; simp at hc
        | cons y ys =>
          rw [hrest, List.dropLast_cons₂] at hc
          rcases List.mem_cons.mp hc with rfl | hc
          · have hdrop : d.drop S ≠ [] := by
              intro hcon
              rw [pyChunks, if_neg (by omega : ¬ S = 0), if_pos hcon] at hrest
              cases hrest
            have : S < d.length := by
              by_contra hcon
              push_neg at hcon
              exact hdrop (List.drop_eq_nil_of_le hcon)
            simp only [List.length_take]
            omega
          · have := ih (d.drop S) hrec c
            rw [hrest] at this
            exact this hc
  exact key data.length data le_rfl

theorem pyChunks_getLast (S : Nat) (hS : 1 ≤ S) (data : List Nat) :
    ∀ c, (pyChunks S data).getLast? = some c → 1 ≤ c.length ∧ c.length ≤ S := by
  have key : ∀ n (d : List Nat), d.length ≤ n →
      ∀ c, (pyChunks S d).getLast? = some c → 1 ≤ c.length ∧ c.length ≤ S := by
    intro n
    induction n with
    | zero =>
      intro d hd
      have : d = [] := List.eq_nil_of_length_eq_zero (Nat.le_zero.mp hd)
      subst this
      rw [pyChunks]
      simp
    | succ n ih =>
      intro d hd c hc
      rw [pyChunks, if_neg (by omega)] at hc
      by_cases hdn : d = []
      · simp [hdn] at hc
      · rw [if_neg hdn] at hc
        have hlen : 0 < d.length := List.length_pos.mpr hdn
        have hrec : (d.drop S).length ≤ n := by
          simp only [List.length_drop]
          omega
        cases hrest : pyChunks S (d.drop S) with
        | nil =>
          rw [hrest] at hc
          simp only [List.getLast?_singleton] at hc
          injection hc with hc
          subst hc
          simp only [List.length_take]
          omega
        | cons y ys =>
          rw [hrest, List.getLast?_cons_cons] at hc
          have := ih (d.drop S) hrec c
          rw [hrest] at this
          exact this hc
  exact key data.length data le_rfl

theorem pyChunks_mem_length (S : Nat) (hS : 1 ≤ S) (data : List Nat) :
    ∀ c ∈ pyChunks S data, 1 ≤ c.length ∧ c.length ≤ S := by
  have key : ∀ n (d : List Nat), d.length ≤ n →
      ∀ c ∈ pyChunks S d, 1 ≤ c.length ∧ c.length ≤ S := by
    intro n
    induction n with
    | zero =>
      intro d hd
      have : d = [] := List.eq_nil_of_length_eq_zero (Nat.le_zero.mp hd)
      subst this
      rw [pyChunks]
      simp
    | succ n ih =>
      intro d hd c hc
      rw [pyChunks, if_neg (by omega)] at hc
      by_cases hdn : d = []
      · simp [hdn] at hc
      · rw [if_neg hdn] at hc
        have hlen : 0 < d.length := List.length_pos.mpr hdn
        have hrec : (d.drop S).length ≤ n := by
          simp only [List.length_drop]
          omega
        rcases List.mem_cons.mp hc with rfl | hc
        · simp only [List.length_take]
          omega
        · exact ih (d.drop S) hrec c hc
  exact key data.length data le_rfl

/-- C1: for every compressed payload and every chunk size `S ≥ 1`, the
slicing loop emits exactly `⌈L/S⌉` data chunks (zero when the payload is
empty), every chunk except possibly the last has length exactly `S`, the
last has length between 1 and `S`, and the concatenation of the chunks in
emission order is exactly the payload. -/
theorem pyChunks_chunk_size_law (S : Nat) (data : List Nat) (hS : 1 ≤ S) :
    (pyChunks S data).length = (data.length + S - 1) / S ∧
    (data = [] → pyChunks S data = []) ∧
    (∀ c ∈ (pyChunks S data).dropLast, c.length = S) ∧
    (∀ c, (pyChunks S data).getLast? = some c → 1 ≤ c.length ∧ c.length ≤ S) ∧
    (pyChunks S data).flatten = data := by
  refine ⟨pyChunks_length S hS data, ?_, pyChunks_dropLast S hS data,
    pyChunks_getLast S hS data, pyChunks_flatten S hS data⟩
  intro hd
  rw [pyChunks, if_neg (by omega), if_pos hd]

theorem hexCharVal_hexDigitChar (n : Nat) (h : n < 16) :
    hexCharVal (hexDigitChar n) = n := by
  interval_cases n <;> decide

theorem isUpperHexDigitChar_hexDigitChar (n : Nat) (h : n < 16) :
    isUpperHexDigitChar (hexDigitChar n) = true := by
  interval_cases n <;> decide

theorem hexDigitChar_ne_zero_char (n : Nat) (h : n < 16) (hn : n ≠ 0) :
    hexDigitChar n ≠ '0' := by
  interval_cases n <;> simp_all <;> decide

theorem hexRep_foldl (n : Nat) :
    ∀ a, (hexRep n).foldl (fun x c => 16 * x + hexCharVal c) a
      = a * 16 ^ (hexRep n).length + n := by
  induction n using Nat.strong_induction_on with
  | _ n ih =>
    intro a
    rw [hexRep]
    by_cases h0 : n = 0
    · simp [h0]
    · rw [if_neg h0, List.foldl_append, List.length_append]
      have hdiv : n / 16 < n := Nat.div_lt_self (Nat.pos_of_ne_zero h0) (by omega)
      rw [ih (n / 16) hdiv a]
      simp only [List.foldl_cons, List.foldl_nil, List.length_cons, List.length_nil]
      rw [hexCharVal_hexDigitChar (n % 16) (Nat.mod_lt _ (by omega))]
      have : a * 16 ^ ((hexRep (n / 16)).length + (0 + 1))
          = (a * 16 ^ (hexRep (n / 16)).length) * 16 := by ring
    
      rw [this]
      have hmod := Nat.div_add_mod n 16
      omega

theorem hexValue_pyHexUpper (n : Nat) : hexValue (pyHexUpper n) = n := by
  unfold pyHexUpper hexValue
  by_cases h : n = 0
  · subst h
    decide
  · rw [if_neg h, hexRep_foldl n 0]
    simp

theorem hexRep_chars (n : Nat) : ∀ c ∈ hexRep n, isUpperHexDigitChar c = true := by
  induction n using Nat.strong_induction_on with
  | _ n ih =>
    intro c hc
    rw [hexRep] at hc
    by_cases h0 : n = 0
    · simp [h0] at hc
    · rw [if_neg h0] at hc
      rcases List.mem_append.mp hc with hc | hc
      · exact ih (n / 16) (Nat.div_lt_self (Nat.pos_of_ne_zero h0) (by omega)) c hc
      · rw [List.mem_singleton.mp hc]
        exact isUpperHexDigitChar_hexDigitChar (n % 16) (Nat.mod_lt _ (by omega))

theorem pyHexUpper_chars (n : Nat) : ∀ c ∈ pyHexUpper n, isUpperHexDigitChar c = true := by
  unfold pyHexUpper
  by_cases h : n = 0
  · simp [h]
    decide
  · rw [if_neg h]
    exact hexRep_chars n

theorem hexRep_ne_nil (n : Nat) (h : n ≠ 0) : hexRep n ≠ [] := by
  rw [hexRep, if_neg h]
  simp

theorem hexRep_head_ne_zero (n : Nat) (h : n ≠ 0) : (hexRep n).head? ≠ some '0' := by
  induction n using Nat.strong_induction_on with
  | _ n ih =>
    rw [hexRep, if_neg h]
    by_cases h16 : n / 16 = 0
    · rw [h16, hexRep]
      simp only [if_pos rfl, List.nil_append, List.head?_cons]
      have hlt : n < 16 := (Nat.div_eq_zero_iff (by omega)).mp h16
      intro hc
      injection hc with hc
      exact hexDigitChar_ne_zero_char (n % 16) (Nat.mod_lt _ (by omega))
        (by rw [Nat.mod_eq_of_lt hlt]; exact h) hc
    · obtain ⟨a, t, hat⟩ := List.exists_cons_of_ne_nil (hexRep_ne_nil (n / 16) h16)
      have hih := ih (n / 16) (Nat.div_lt_self (Nat.pos_of_ne_zero h) (by omega)) h16
      rw [hat] at hih ⊢
      simp only [List.cons_append, List.head?_cons] at hih ⊢
      exact hih

theorem pyHexUpper_head_ne_zero (n : Nat) (h : 1 ≤ n) : (pyHexUpper n).head? ≠ some '0' := by
  unfold pyHexUpper
  rw [if_neg (by omega)]
  exact hexRep_head_ne_zero n (by omega)

theorem pyHexUpper_ne_nil (n : Nat) : pyHexUpper n ≠ [] := by
  unfold pyHexUpper
  by_cases h : n = 0
  · simp [h]
  · rw [if_neg h]
    exact hexRep_ne_nil n h

theorem writeChunkedData_eq (S : Nat) (data : List Nat) :
    writeChunkedData S data
      = ((pyChunks S data).map fun c => hexB c.length ++ CRLF ++ c ++ CRLF).flatten := by
  have key : ∀ n (d : List Nat), d.length ≤ n → writeChunkedData S d
      = ((pyChunks S d).map fun c => hexB c.length ++ CRLF ++ c ++ CRLF).flatten := by
    intro n
    induction n with
    | zero =>
      intro d hd
      have : d = [] := List.eq_nil_of_length_eq_zero (Nat.le_zero.mp hd)
      subst this
      rw [writeChunkedData, pyChunks]
      by_cases hS : S = 0 <;> simp [hS]
    | succ n ih =>
      intro d hd
      rw [writeChunkedData, pyChunks]
      by_cases hS : S = 0
      · simp [hS]
      · rw [if_neg hS, if_neg hS]
        by_cases hdn : d = []
        · simp [hdn]
        · rw [if_neg hdn, if_neg hdn]
          have hlen : 0 < d.length := List.length_pos.mpr hdn
          have hrec : (d.drop S).length ≤ n := by
            simp only [List.length_drop]
            omega
          rw [List.map_cons, List.flatten_cons, ih (d.drop S) hrec]
  exact key data.length data le_rfl

/-- C2: the chunked writer emits, for every chunk slice, exactly the
slice length in uppercase hexadecimal (digits 0-9 and A-F only, no
leading zeros, no 0x), CRLF, the slice bytes, CRLF; and after all the
data chunks it always emits the terminal marker `0\r\n\r\n`. -/
theorem writeChunked_frame_format (S : Nat) (data : List Nat) (hS : 1 ≤ S) :
    writeChunked S data
      = ((pyChunks S data).map fun c =>
          (pyHexUpper c.length).map Char.toNat ++ CRLF ++ c ++ CRLF).flatten
        ++ strB "0\r\n\r\n" ∧
    ∀ c ∈ pyChunks S data,
      hexValue (pyHexUpper c.length) = c.length ∧
      (∀ ch ∈ pyHexUpper c.length, isUpperHexDigitChar ch = true) ∧
      (pyHexUpper c.length).head? ≠ some '0' := by
  constructor
  · unfold writeChunked
    rw [writeChunkedData_eq]
    rfl
  · intro c hc
    have hmem := pyChunks_mem_length S hS data c hc
    exact ⟨hexValue_pyHexUpper c.length, pyHexUpper_chars c.length,
      pyHexUpper_head_ne_zero c.length hmem.1⟩

/-- Witness for C1 at chunk size 3 and a 7-byte payload. -/
theorem pyChunks_chunk_size_law_witness :
    (pyChunks 3 (strB "ABCDEFG")).length = ((strB "ABCDEFG").length + 3 - 1) / 3 ∧
    (pyChunks 3 (strB "ABCDEFG")).flatten = strB "ABCDEFG" :=
  ⟨(pyChunks_chunk_size_law 3 (strB "ABCDEFG") (by decide)).1,
   (pyChunks_chunk_size_law 3 (strB "ABCDEFG") (by decide)).2.2.2.2⟩

/-- Witness for C2 at chunk size 3 and a 7-byte payload. -/
theorem writeChunked_frame_format_witness :
    writeChunked 3 (strB "ABCDEFG")
      = ((pyChunks 3 (strB "ABCDEFG")).map fun c =>
          (pyHexUpper c.length).map Char.toNat ++ CRLF ++ c ++ CRLF).flatten
        ++ strB "0\r\n\r\n" :=
  (writeChunked_frame_format 3 (strB "ABCDEFG") (by decide)).1

/-- Witness for the amended C3 on a concrete request with duplicate
`Foo`/`foo` headers. -/
theorem headers_last_occurrence_wins_witness :
    ∃ pairs raw,
      headerLinesGo (readline (strB "GET / HTTP/1.0\r\nFoo: 1\r\nfoo: 2\r\n\r\n")).2 [] []
        = .ok (pairs, raw) ∧
      dictGet (strB "foo")
          (Request.mk (strB "GET") (strB "/") (strB "HTTP/1.0\r\n")
            [(strB "foo", strB "2")] none).headers
        = lastHeaderValue (strB "foo") pairs :=
  headers_last_occurrence_wins (strB "GET / HTTP/1.0\r\nFoo: 1\r\nfoo: 2\r\n\r\n")
    (Request.mk (strB "GET") (strB "/") (strB "HTTP/1.0\r\n") [(strB "foo", strB "2")] none)
    [] (strB "foo") (by decide)

/-- Witness for the amended C4 on a request declaring `content-length: 3`
followed by 5 stream bytes. -/
theorem body_read_semantics_witness :
    ∃ raw,
      parseHeadersGo (readline (strB "POST / HTTP/1.0\r\ncontent-length: 3\r\n\r\nabcde")).2 [] []
        = .ok ((Request.mk (strB "POST") (strB "/") (strB "HTTP/1.0\r\n")
            [(strB "content-length", strB "3")] (some (strB "abc"))).headers, raw) ∧
      (Request.mk (strB "POST") (strB "/") (strB "HTTP/1.0\r\n")
          [(strB "content-length", strB "3")] (some (strB "abc"))).body
        = some (raw.take (Int.toNat 3)) ∧
      strB "de" = raw.drop (Int.toNat 3) ∧
      (((Request.mk (strB "POST") (strB "/") (strB "HTTP/1.0\r\n")
          [(strB "content-length", strB "3")] (some (strB "abc"))).body).getD []).length
        = min (Int.toNat 3) raw.length :=
  body_read_semantics (strB "POST / HTTP/1.0\r\ncontent-length: 3\r\n\r\nabcde")
    (Request.mk (strB "POST") (strB "/") (strB "HTTP/1.0\r\n")
      [(strB "content-length", strB "3")] (some (strB "abc")))
    (strB "de") (strB "3") 3 (by decide) (by decide) (by decide) (by decide)

/-- Witness for C5 decoding a two-field body. -/
theorem form_decode_spec_witness :
    form_decode (strB "a=1&b=2")
      = .ok ((pySplitAll 38 (strB "a=1&b=2")).foldl (fun d f =>
          dictInsert (unquote_plus (f.takeWhile (· != 61)))
            (unquote_plus ((f.dropWhile (· != 61)).tail)) d) []) :=
  (form_decode_spec.1 (strB "a=1&b=2")).2 (by decide)

/-- Witness for C6: a one-token request line fails with
`MalformedRequestLine`. -/
theorem request_line_tokens_witness :
    parseRequest (strB "GET\r\n") = .error .malformedRequestLine :=
  (request_line_tokens (strB "GET\r\n")).1.mpr (by decide)

/-- Witness for C7: a PUT request fails with `UnsupportedMethod`. -/
theorem method_assertion_spec_witness :
    parseRequest (strB "PUT / HTTP/1.0\r\n\r\n") = .error .unsupportedMethod :=
  (method_assertion_spec (strB "PUT / HTTP/1.0\r\n\r\n")).1.mpr
    ⟨strB "PUT", strB "/", strB "HTTP/1.0\r\n", by decide, by decide, by decide⟩

/-- Witness for C8: `Content-Length` versus `content-length` parse
identically. -/
theorem header_case_insensitivity_witness :
    parseRequest (mkRequestStream (strB "POST /add HTTP/1.0")
        [(strB "Content-Length", strB " 5")] (strB "guest"))
      = parseRequest (mkRequestStream (strB "POST /add HTTP/1.0")
        [(strB "content-length", strB " 5")] (strB "guest")) :=
  header_case_insensitivity (strB "POST /add HTTP/1.0")
    [(strB "Content-Length", strB " 5")] [(strB "content-length", strB " 5")]
    (strB "guest") (by decide) (by decide) (by decide) (by decide)

/-- Witness for C9 on a GET / request, which leaves the entries
unchanged. -/
theorem entries_frame_condition_witness :
    (strB "GET" = strB "POST" ∧ strB "/" = strB "/add" ∧
      ∃ b params g, (none : Option (List Nat)) = some b ∧ form_decode b = .ok params ∧
        dictGet (strB "guest") params = some g ∧ ENTRIES = ENTRIES ++ [g]) ∨
    ENTRIES = ENTRIES :=
  (entries_frame_condition (strB "GET") (strB "/") [] none ENTRIES
    (strB "200 OK") (show_comments ENTRIES) ENTRIES (by decide)).1

/-- Witness for C10 on a GET / request. -/
theorem do_request_status_invariant_witness :
    strB "200 OK" = strB "200 OK" ∨ strB "200 OK" = strB "404 Not Found" :=
  do_request_status_invariant (strB "GET") (strB "/") [] none ENTRIES
    (strB "200 OK") (show_comments ENTRIES) ENTRIES (by decide)
